import Mathlib

/-!
Verification development for the serebii.net Pokémon scraper
(`src/scraper.py`).  The HTML document handed to the extraction code is
modelled as a first-child / next-sibling forest (`Dom`); the BeautifulSoup
operations actually used by the scraper (`find_all`, `find` with attribute
or string filters, `find_next_siblings`, `find_parent`, `findNext`,
`.text`, `.string`, tag truthiness) are given executable semantics over
that forest.  Python string primitives (`split`, `replace`, `strip`,
`int`, `str.zfill`) are modelled over `List Char` by structural recursion
so that all definitions evaluate inside the kernel.
-/

namespace Scraper

/-! ### Python string primitives -/

/-- Characters stripped by Python `str.strip()` (ASCII whitespace). -/
def isSpaceCh (c : Char) : Bool :=
  c == ' ' || c == '\t' || c == '\n' || c == '\r' || c == '\x0b' || c == '\x0c'

/-- List-level prefix test used by the split/contains primitives. -/
def isPre : List Char → List Char → Bool
  | [], _ => true
  | _ :: _, [] => false
  | a :: as, b :: bs => a == b && isPre as bs

/-- Worker for Python `str.split(sep)` with a non-empty separator.  The
`fuel` argument is only a structural-termination device: every step
consumes at least one character of the remaining string, so any fuel of at
least the string length computes the exact Python result. -/
def splitCh (sep : List Char) : Nat → List Char → List Char → List (List Char)
  | _, acc, [] => [acc.reverse]
  | 0, acc, s => [acc.reverse ++ s]
  | fuel + 1, acc, c :: cs =>
    if isPre sep (c :: cs) then
      acc.reverse :: splitCh sep fuel [] (List.drop sep.length (c :: cs))
    else
      splitCh sep fuel (c :: acc) cs

/-- Python `s.split(sep)` for a non-empty separator `sep`. -/
def pySplit (sep s : String) : List String :=
  (splitCh sep.data s.data.length [] s.data).map (fun l => ⟨l⟩)

/-- Joins strings with a separator between consecutive items. -/
def joinSep (sep : String) : List String → String
  | [] => ""
  | [x] => x
  | x :: y :: rest => x ++ sep ++ joinSep sep (y :: rest)

/-- Python `s.replace(old, new)` for non-empty `old`: replace every
non-overlapping occurrence, scanning left to right. -/
def pyReplace (old new s : String) : String :=
  joinSep new (pySplit old s)

/-- Substring test over character lists (Python `needle in hay`). -/
def containsCh (needle : List Char) : List Char → Bool
  | [] => isPre needle []
  | c :: cs => isPre needle (c :: cs) || containsCh needle cs

/-- Python `needle in hay` on strings. -/
def containsS (needle hay : String) : Bool :=
  containsCh needle.data hay.data

/-- Python `s.strip()`. -/
def pyStrip (s : String) : String :=
  ⟨((s.data.dropWhile isSpaceCh).reverse.dropWhile isSpaceCh).reverse⟩

/-- Accumulating decimal reader; fails on the first non-digit. -/
def digitsToNatAux : List Char → Nat → Option Nat
  | [], acc => some acc
  | c :: cs, acc =>
    if c.isDigit then digitsToNatAux cs (acc * 10 + (c.toNat - 48)) else none

/-- Python `int(s)` on decimal literals: surrounding whitespace is
stripped, an optional single sign is allowed, and the remainder must be a
non-empty run of digits (digit-group underscores are not modelled; no
input of this development contains them). -/
def pyInt (s : String) : Option Int :=
  match (pyStrip s).data with
  | [] => none
  | '+' :: ds =>
    if ds.isEmpty then none else (digitsToNatAux ds 0).map Int.ofNat
  | '-' :: ds =>
    if ds.isEmpty then none else (digitsToNatAux ds 0).map (fun n => -(n : Int))
  | ds => (digitsToNatAux ds 0).map Int.ofNat

/-- Python `str(i)` for an `int`. -/
def pyStr (i : Int) : String :=
  if i < 0 then "-" ++ Nat.repr i.natAbs else Nat.repr i.toNat

/-- Python `s.zfill(3)`: left-pad with zeros to width 3, keeping a
leading sign in front of the padding. -/
def zfill3 (s : String) : String :=
  if s.data.length ≥ 3 then s
  else
    match s.data with
    | '-' :: rest => ⟨'-' :: (List.replicate (2 - rest.length) '0' ++ rest)⟩
    | '+' :: rest => ⟨'+' :: (List.replicate (2 - rest.length) '0' ++ rest)⟩
    | l => ⟨List.replicate (3 - l.length) '0' ++ l⟩

/-- URL built by `extract_statistics` (line 57 of `scraper.py`). -/
def urlOf (pokeId : Int) : String :=
  "https://serebii.net/pokedex-sv/" ++ zfill3 (pyStr pokeId) ++ ".shtml"

/-- Python whitespace split (`str.split()` with no argument), used by
BeautifulSoup to turn a `class` attribute into a list of class names. -/
def splitWsAux : List Char → List Char → List String
  | acc, [] => if acc.isEmpty then [] else [⟨acc.reverse⟩]
  | acc, c :: cs =>
    if isSpaceCh c then
      if acc.isEmpty then splitWsAux [] cs else ⟨acc.reverse⟩ :: splitWsAux [] cs
    else
      splitWsAux (c :: acc) cs

/-- Whitespace split of a string, dropping empty fields. -/
def splitWs (s : String) : List String :=
  splitWsAux [] s.data

/-! ### The parsed document -/

/-- A parsed HTML forest in first-child / next-sibling form: `text s sib`
is a text node followed by its right siblings, `elem tag attrs children
sib` an element with its attribute list, child forest, and right
siblings.  A whole parsed page is a `Dom` — the sequence of top-level
nodes below the BeautifulSoup root. -/
inductive Dom where
  | nil : Dom
  | text (s : String) (sib : Dom) : Dom
  | elem (tag : String) (attrs : List (String × String)) (children : Dom) (sib : Dom) : Dom
deriving Repr, DecidableEq

/-- One node of the document, as returned by the BeautifulSoup search
operations: either a text node or an element with its child forest. -/
inductive HNode where
  | text (s : String)
  | elem (tag : String) (attrs : List (String × String)) (children : Dom)
deriving Repr, DecidableEq

/-- All text characters of a forest, in document order (bs4 `.text`). -/
def textD : Dom → List Char
  | .nil => []
  | .text s sib => s.data ++ textD sib
  | .elem _ _ cs sib => textD cs ++ textD sib

/-- Child forest of a node. -/
def HNode.children : HNode → Dom
  | .text _ => .nil
  | .elem _ _ cs => cs

/-- bs4 `.text` of a node: the concatenation of all its descendant
strings (a text node is its own text). -/
def HNode.textOf : HNode → String
  | .text s => s
  | .elem _ _ cs => ⟨textD cs⟩

/-- All nodes of a forest in document (preorder) order.  This is exactly
bs4's parse order, over which `find`/`find_all` return matches and
`next_elements` advances. -/
def preorderD : Dom → List HNode
  | .nil => []
  | .text s sib => .text s :: preorderD sib
  | .elem t a cs sib => .elem t a cs :: (preorderD cs ++ preorderD sib)

/-- The nodes of a forest at top level only (bs4 `.contents`). -/
def forestElems : Dom → List HNode
  | .nil => []
  | .text s sib => .text s :: forestElems sib
  | .elem t a cs sib => .elem t a cs :: forestElems sib

/-- Builds a forest from a sibling list (convenience for writing
concrete documents). -/
def domOf : List HNode → Dom
  | [] => .nil
  | .text s :: rest => .text s (domOf rest)
  | .elem t a cs :: rest => .elem t a cs (domOf rest)

/-- bs4 `.string` of a tag whose child forest is the argument: defined
when the forest is a single text node, or a single element whose
`.string` is defined. -/
def domStr? : Dom → Option String
  | .text s .nil => some s
  | .elem _ _ cs .nil => domStr? cs
  | _ => none

/-- bs4 `.string` of a node. -/
def HNode.str? : HNode → Option String
  | .text s => some s
  | .elem _ _ cs => domStr? cs

/-- Python truthiness of a bs4 object: a `NavigableString` is truthy iff
non-empty, a `Tag` iff it has contents (`Tag.__len__`). -/
def truthy : HNode → Bool
  | .text s => !(s == "")
  | .elem _ _ .nil => false
  | .elem _ _ _ => true

/-- Tag-name test (text nodes never match a tag name). -/
def HNode.isTag (t : String) : HNode → Bool
  | .text _ => false
  | .elem tg _ _ => tg == t

/-- Attribute lookup on an element. -/
def HNode.attr (key : String) : HNode → Option String
  | .text _ => none
  | .elem _ attrs _ => (attrs.find? (fun p => p.1 == key)).map Prod.snd

/-- bs4 class matching: the wanted class must be one of the
whitespace-separated class names of the `class` attribute. -/
def hasClass (c : String) (n : HNode) : Bool :=
  match n.attr "class" with
  | some v => (splitWs v).contains c
  | none => false

/-! ### Search operations

`find?`/`filter` over `preorderD` model bs4 `find`/`find_all`.  The
remaining operations need the tree structure and are defined by direct
recursion over the forest, always visiting a node before its subtree and
its subtree before its right siblings, i.e. in the same preorder. -/

/-- Locates the first node (in preorder) satisfying `p` and returns its
following-sibling forest: the composition
`x.find(p).find_next_siblings(...)` before tag filtering.  `none` when no
node of the forest satisfies `p` (in the source an `AttributeError`). -/
def siblingsAfter (p : HNode → Bool) : Dom → Option Dom
  | .nil => none
  | .text s sib =>
    if p (.text s) then some sib else siblingsAfter p sib
  | .elem t a cs sib =>
    if p (.elem t a cs) then some sib
    else
      match siblingsAfter p cs with
      | some r => some r
      | none => siblingsAfter p sib

/-- Locates the first node (in preorder) satisfying `p` and returns its
nearest enclosing `table` element, i.e. `x.find(p).find_parent('table')`.
`cur` is the nearest `table` ancestor of the forest being scanned.
Returns `none` when no node satisfies `p` (an `AttributeError` in the
source), `some none` when the match has no `table` ancestor. -/
def ancSearch (p : HNode → Bool) (cur : Option HNode) : Dom → Option (Option HNode)
  | .nil => none
  | .text s sib =>
    if p (.text s) then some cur else ancSearch p cur sib
  | .elem t a cs sib =>
    if p (.elem t a cs) then some cur
    else
      match ancSearch p (if t == "table" then some (.elem t a cs) else cur) cs with
      | some r => some r
      | none => ancSearch p cur sib

/-- Every node of the forest, in preorder, paired with the list of all
nodes that come after its whole subtree in global document order.  `post`
is that list for the forest as a whole.  From an entry `(n, post)` the
bs4 `next_elements` of `n` is `preorderD n.children ++ post`. -/
def preorderPosts : Dom → List HNode → List (HNode × List HNode)
  | .nil, _ => []
  | .text s sib, post =>
    (.text s, preorderD sib ++ post) :: preorderPosts sib post
  | .elem t a cs sib, post =>
    (.elem t a cs, preorderD sib ++ post) ::
      (preorderPosts cs (preorderD sib ++ post) ++ preorderPosts sib post)

/-- Locates the first node (in preorder) satisfying `p` and pairs it with
its bs4 `next_elements` list; `after` is the global document order
continuation of the forest.  This composes `x.find(p)` with a subsequent
`findNext`, which searches the whole document after the match. -/
def findWithAfter (p : HNode → Bool) : Dom → List HNode → Option (HNode × List HNode)
  | .nil, _ => none
  | .text s sib, after =>
    if p (.text s) then some (.text s, preorderD sib ++ after)
    else findWithAfter p sib after
  | .elem t a cs sib, after =>
    if p (.elem t a cs) then some (.elem t a cs, preorderD cs ++ (preorderD sib ++ after))
    else
      match findWithAfter p cs (preorderD sib ++ after) with
      | some r => some r
      | none => findWithAfter p sib after

/-! ### Node predicates used by the extractors -/

/-- `soup.find_all('div', attrs=\x7b'align': 'center'\x7d)` filter. -/
def isCenterDiv (n : HNode) : Bool :=
  n.isTag "div" && (n.attr "align" == some "center")

/-- `findAll('td', \x7b'class': 'fooinfo'\x7d)` filter. -/
def isFooTd (n : HNode) : Bool :=
  n.isTag "td" && hasClass "fooinfo" n

/-- `find('td', string='Standard')` filter: exact `.string` match. -/
def isStdTd (n : HNode) : Bool :=
  n.isTag "td" && (n.str? == some "Standard")

/-- `find('td', string=re.compile("Base Stats - Total.*"))` filter:
`re.search` of that pattern succeeds on `.string` exactly when the text
contains the substring `"Base Stats - Total"` (the trailing `.*` always
matches). -/
def isBaseStatsTd (n : HNode) : Bool :=
  n.isTag "td" &&
    (match n.str? with
     | some s => containsS "Base Stats - Total" s
     | none => false)

/-- Plain `td` tag test (`find_next_siblings('td')`, `findNext('td')`,
`find_all('td')`). -/
def isTd (n : HNode) : Bool := n.isTag "td"

/-- Plain `tr` tag test (`find_all('tr')`). -/
def isTr (n : HNode) : Bool := n.isTag "tr"

/-- `find('a', \x7b'name': nm\x7d)` filter. -/
def isAnchorNamed (nm : String) (n : HNode) : Bool :=
  n.isTag "a" && (n.attr "name" == some nm)

/-- `find('table', \x7b'class': 'dextable'\x7d)` filter. -/
def isDextable (n : HNode) : Bool :=
  n.isTag "table" && hasClass "dextable" n

/-- `t.find_all('tr')`: all `tr` descendants of a node. -/
def tableRows (t : HNode) : List HNode :=
  (preorderD t.children).filter isTr

/-- `row.find_all('td')`: all `td` descendants of a row. -/
def rowCells (r : HNode) : List HNode :=
  (preorderD r.children).filter isTd

/-! ### Field extractors (`extract_statistics`, lines 61–147) -/

/-- The move-table row loop (lines 78–84 / 90–96): for each row with at
least two cells, emit `"<cols0>: <cols1>"` from the stripped texts of the
first two cells, keeping document row order. -/
def movesRows : List HNode → List String
  | [] => []
  | r :: rs =>
    match rowCells r with
    | c0 :: c1 :: _ => (pyStrip c0.textOf ++ ": " ++ pyStrip c1.textOf) :: movesRows rs
    | _ => movesRows rs

/-- The egg-move row loop (lines 105–110): rows with at least two cells
contribute the stripped text of the first cell only. -/
def eggRows : List HNode → List String
  | [] => []
  | r :: rs =>
    match rowCells r with
    | c0 :: _ :: _ => pyStrip c0.textOf :: eggRows rs
    | _ => eggRows rs

/-- `soup.find('a', attrs).find_parent('table')` followed by the
truthiness guard and row loop, for the `standardlevel` and `tmhm`
anchors (lines 75–96).  `none` models the uncaught `AttributeError` when
the anchor is absent from the document. -/
def movesFromAnchor (nm : String) (doc : Dom) : Option (List String) :=
  match ancSearch (isAnchorNamed nm) none doc with
  | none => none
  | some t? =>
    some
      (match t? with
       | none => []
       | some t => if truthy t then movesRows ((tableRows t).drop 2) else [])

/-- The egg-move extractor (lines 99–110): the anchor lookup is guarded
by `try/except AttributeError`, so a missing anchor yields an empty
table reference and an empty result instead of an error. -/
def eggMovesExtract (doc : Dom) : List String :=
  match ancSearch (isAnchorNamed "eggmoves") none doc with
  | none => []
  | some none => []
  | some (some t) => if truthy t then eggRows ((tableRows t).drop 2) else []

/-- One ability cell (lines 120–124): the stripped cell text, suffixed
with `" (Hidden)"` when the cell text contains `"Hidden Ability"`. -/
def abilityCell (c : HNode) : String :=
  if containsS "Hidden Ability" c.textOf then pyStrip c.textOf ++ " (Hidden)"
  else pyStrip c.textOf

/-- The inner cell loop of the abilities extractor. -/
def abilityCells : List HNode → List String
  | [] => []
  | c :: cs => abilityCell c :: abilityCells cs

/-- The abilities row loop (lines 116–124): every row whose text contains
`"Abilities"` contributes all of its cells. -/
def abilityRows : List HNode → List String
  | [] => []
  | r :: rs =>
    (if containsS "Abilities" r.textOf then abilityCells (rowCells r) else []) ++
      abilityRows rs

/-- The abilities extractor (lines 113–124): rows are taken from the
first `dextable`-classed table of the document only (`soup.find`), with
the Python truthiness guard on the found table. -/
def abilitiesExtract (doc : Dom) : List String :=
  match (preorderD doc).find? isDextable with
  | none => []
  | some t => if truthy t then abilityRows (tableRows t) else []

/-- `find('td', string='Standard').findNext('td').text` for a cell given
with its global continuation (used for the weight cell, line 70). -/
def stdNextText (cell : HNode × List HNode) : Option String := do
  let (_, tl) ← findWithAfter isStdTd cell.1.children cell.2
  let nxt ← tl.find? isTd
  some nxt.textOf

/-- Height and weight extraction (lines 65–70): the legacy path splits
the raw cell text on the literal `"\r\n\t\t\t"` delimiter; when the
height cell contains a `td` whose `.string` is exactly `"Standard"`, both
fields are instead read from the `td` following the `Standard` cell, with
a space inserted after the unit mark before splitting on spaces. -/
def heightWeight (c6 c7 : HNode × List HNode) : Option (List String × List String) :=
  let hLegacy := pySplit "\r\n\t\t\t" c6.1.textOf
  let wLegacy := pySplit "\r\n\t\t\t" c7.1.textOf
  match findWithAfter isStdTd c6.1.children c6.2 with
  | none => some (hLegacy, wLegacy)
  | some (_, tailH) => do
    let nxtH ← tailH.find? isTd
    let nxtW ← stdNextText c7
    some (pySplit " " (pyReplace "\"" "\" " nxtH.textOf),
          pySplit " " (pyReplace "lbs" "lbs " nxtW))

/-- Lines 62–63: the second `div[align=center]` of the page and its
`td.fooinfo` descendants, each node carried with its global document
continuation (needed for the `findNext` of the height branch). -/
def cpEntries (doc : Dom) : Option (HNode × List (HNode × List HNode)) := do
  let divs := (preorderPosts doc []).filter (fun e => isCenterDiv e.1)
  let d1 ← divs.get? 1
  some (d1.1, (preorderPosts d1.1.children d1.2).filter (fun e => isFooTd e.1))

/-- All values produced inside the `try` block of `extract_statistics`
(lines 61–124).  Any failure inside the block is an exception that is
logged with the page URL and re-raised. -/
structure TryOut where
  cpi : List (HNode × List HNode)
  height : List String
  weight : List String
  baseStats : List HNode
  levelUp : List String
  tmHm : List String
  egg : List String
  abilities : List String
deriving Repr, DecidableEq

/-- The `try` block of `extract_statistics` (lines 61–124); `none` is an
exception escaping the block. -/
def tryBlock (doc : Dom) : Option TryOut := do
  let (div1, cpi) ← cpEntries doc
  let c6 ← cpi.get? 6
  let c7 ← cpi.get? 7
  let (h, w) ← heightWeight c6 c7
  let bsSibs ← siblingsAfter isBaseStatsTd div1.children
  let baseStats := (forestElems bsSibs).filter isTd
  let lvl ← movesFromAnchor "standardlevel" doc
  let tmhm ← movesFromAnchor "tmhm" doc
  some ⟨cpi, h, w, baseStats, lvl, tmhm, eggMovesExtract doc, abilitiesExtract doc⟩

/-- The record assembled from one page (the dict of lines 130–145). -/
structure PokemonRecord where
  name : String
  number : String
  classification : String
  height : List String
  weight : List String
  hit_points : Int
  abilities : List String
  attack : Int
  defense : Int
  special : Int
  speed : Int
  level_up_moves : List String
  tm_hm_moves : List String
  egg_moves : List String
deriving Repr, DecidableEq

/-- Errors escaping `extract_statistics`: exceptions raised inside the
`try` block are logged with the offending URL and re-raised
(lines 126–128); failures of the record assembly (indexing or `int`
parsing, lines 130–145) happen outside the block and are not logged
there. -/
inductive ScrapeError where
  | loggedExtraction (url : String)
  | unlogged
deriving Repr, DecidableEq

/-- The record assembly (lines 130–145): ordinal cells 1 and 5 of the
centered panel, and the five base-stat siblings parsed as integers. -/
def assemble (tb : TryOut) (pokeId : Int) : Option PokemonRecord := do
  let c1 ← tb.cpi.get? 1
  let c5 ← tb.cpi.get? 5
  let b0 ← tb.baseStats.get? 0
  let b1 ← tb.baseStats.get? 1
  let b2 ← tb.baseStats.get? 2
  let b3 ← tb.baseStats.get? 3
  let b4 ← tb.baseStats.get? 4
  let hp ← pyInt b0.textOf
  let atk ← pyInt b1.textOf
  let dfn ← pyInt b2.textOf
  let spc ← pyInt b3.textOf
  let spd ← pyInt b4.textOf
  some ⟨c1.1.textOf, "#" ++ zfill3 (pyStr pokeId), c5.1.textOf, tb.height, tb.weight,
        hp, tb.abilities, atk, dfn, spc, spd, tb.levelUp, tb.tmHm, tb.egg⟩

/-- `extract_statistics` (lines 53–147) for a given parsed document:
either a complete record, or the first exception — logged with the URL
when raised inside the `try` block. -/
def extract_statistics (doc : Dom) (pokeId : Int) : Except ScrapeError PokemonRecord :=
  match tryBlock doc with
  | none => .error (.loggedExtraction (urlOf pokeId))
  | some tb =>
    match assemble tb pokeId with
    | none => .error .unlogged
    | some r => .ok r

/-! ### The batch loop, output paths and input validation -/

/-- Observable actions of one run: the per-ID page fetch, the two output
paths (console formatting via `display_formatted`, and the JSON dump of
the whole batch to the output file), and the log lines. -/
inductive Event where
  | fetched (url : String)
  | displayed (r : PokemonRecord)
  | loggedScrape (number nm : String)
  | loggedInfo (msg : String)
  | loggedError (msg : String)
  | savedJson (records : List PokemonRecord)
deriving Repr, DecidableEq

/-- Python `range(a, b)` over `int`s, as the list it iterates. -/
def pyRange (a b : Int) : List Int :=
  (List.range (b - a).toNat).map (fun (k : Nat) => a + (k : Int))

/-- Result of `scrape_pokemon`: the accumulated `data_list` (paired with
the loop ID each record was appended for), the emitted events in order,
and the exception terminating the run, if any. -/
structure RunOut where
  recs : List (Int × PokemonRecord)
  events : List Event
  err : Option ScrapeError
deriving Repr, DecidableEq

/-- The `for poke_id in range(...)` loop of `scrape_pokemon`
(lines 37–44): fetch and extract each ID in turn; append the record and
emit the per-record output (console display when `verbose or not save`,
otherwise a log line); an exception aborts the loop at once. -/
def runLoop (docs : Int → Dom) (save verbose : Bool) : List Int → RunOut
  | [] => ⟨[], [], none⟩
  | i :: is =>
    match extract_statistics (docs i) i with
    | .error e => ⟨[], [.fetched (urlOf i)], some e⟩
    | .ok r =>
      let ev := if verbose || !save then Event.displayed r
                else Event.loggedScrape r.number r.name
      let rest := runLoop docs save verbose is
      ⟨(i, r) :: rest.recs, .fetched (urlOf i) :: ev :: rest.events, rest.err⟩

/-- `scrape_pokemon` (lines 31–50): run the loop over
`range(first_id, last_id + 1)`; if it completes, either dump the batch to
the JSON file (`--save`) or log the closing hint. -/
def scrape_pokemon (docs : Int → Dom) (first_id last_id : Int) (save verbose : Bool) : RunOut :=
  let out := runLoop docs save verbose (pyRange first_id (last_id + 1))
  match out.err with
  | some e => ⟨out.recs, out.events, some e⟩
  | none =>
    if save then
      ⟨out.recs,
       out.events ++ [.loggedInfo "Saving to pokemon.json",
                      .savedJson (out.recs.map Prod.snd)], none⟩
    else
      ⟨out.recs,
       out.events ++ [.loggedInfo "All Pokémon retrieved! To save to JSON, use the --save flag"],
       none⟩

/-- Message logged by `validate_input` on an out-of-range ID. -/
def rangeErrorMsg : String := "Error: This Pokémon is not yet supported!"

/-- `validate_input` (lines 179–188): IDs of 1026 or above log an error
and call `exit()`; otherwise a `last` below `first` is coerced up to
`first`. -/
def validate_input (first_id last_id : Int) : Except String (Int × Int) :=
  if first_id ≥ 1026 || last_id ≥ 1026 then .error rangeErrorMsg
  else if last_id < first_id then .ok (first_id, first_id)
  else .ok (first_id, last_id)

/-- How the process ends.  Python `exit()` with no argument raises
`SystemExit(None)`; `SystemExit` is not caught by the
`except Exception` of the `__main__` block, and the interpreter then
terminates with exit status 0.  An exception re-raised out of the batch
terminates the process abnormally (`raised`). -/
inductive Outcome where
  | finished
  | exited (code : Nat)
  | raised (e : ScrapeError)
deriving Repr, DecidableEq

/-- Command-line arguments of one run. -/
structure Args where
  save : Bool
  first : Int
  last : Int
  verbose : Bool
deriving Repr, DecidableEq

/-- The `__main__` block (lines 191–199): log the banner, validate the
range (exiting on failure), then run the batch; an exception from the
batch is logged and re-raised. -/
def mainRun (docs : Int → Dom) (a : Args) : List Event × Outcome :=
  let banner := Event.loggedInfo "Extracting data from Serebii.net"
  match validate_input a.first a.last with
  | .error msg => ([banner, .loggedError msg], .exited 0)
  | .ok (f, l) =>
    let out := scrape_pokemon docs f l a.save a.verbose
    match out.err with
    | some e => (banner :: out.events ++ [.loggedError "exception"], .raised e)
    | none => (banner :: out.events, .finished)

/-! ### Derived notions used to state the claims -/

/-- The `"<level>: <move>"` value contributed by one move-table row, when
the row has at least two cells. -/
def fmtRow? (r : HNode) : Option String :=
  match rowCells r with
  | c0 :: c1 :: _ => some (pyStrip c0.textOf ++ ": " ++ pyStrip c1.textOf)
  | _ => none

instance : Inhabited PokemonRecord :=
  ⟨⟨"", "", "", [], [], 0, [], 0, 0, 0, 0, [], [], []⟩⟩

/-- Whether extraction succeeds for an ID against the fetched page. -/
def extractsOk (docs : Int → Dom) (i : Int) : Bool :=
  match extract_statistics (docs i) i with
  | .ok _ => true
  | .error _ => false

/-- The record extracted for an ID (meaningful when `extractsOk`). -/
def recOf (docs : Int → Dom) (i : Int) : PokemonRecord :=
  match extract_statistics (docs i) i with
  | .ok r => r
  | .error _ => default

/-- The error raised for an ID (meaningful when extraction fails). -/
def errOf (docs : Int → Dom) (i : Int) : ScrapeError :=
  match extract_statistics (docs i) i with
  | .ok _ => .unlogged
  | .error e => e

/-- Events of one successful loop iteration. -/
def perRecEvents (docs : Int → Dom) (save verbose : Bool) (i : Int) : List Event :=
  [.fetched (urlOf i),
   if verbose || !save then .displayed (recOf docs i)
   else .loggedScrape (recOf docs i).number (recOf docs i).name]

/-- Does the console-formatting output path fire in this event? -/
def isDisplayedE : Event → Bool
  | .displayed _ => true
  | _ => false

/-- Does the JSON-persistence output path fire in this event? -/
def isSavedE : Event → Bool
  | .savedJson _ => true
  | _ => false

/-- Does this event fetch a page? -/
def isFetchedE : Event → Bool
  | .fetched _ => true
  | _ => false

/-! ### Concrete test documents

Small pages exercising every extractor, used to instantiate the claims.
`witnessDoc` uses the legacy newline height format and has no egg-move
anchor; `witnessDocStd` uses the `Standard` height/weight variant;
`docTwoDex` carries a second `dextable` whose ability row must be
ignored. -/

/-- A plain `td` cell holding one text node. -/
def td (s : String) : HNode := .elem "td" [] (domOf [.text s])

/-- A `td.fooinfo` cell holding one text node. -/
def tdF (s : String) : HNode := .elem "td" [("class", "fooinfo")] (domOf [.text s])

/-- The base-stats row: the matching cell followed by five stat cells. -/
def statsRow : HNode :=
  .elem "tr" [] (domOf [td "Base Stats - Total", td "45", td "49", td "49", td "65", td "45"])

/-- A decoy first centered div. -/
def div0 : HNode := .elem "div" [("align", "center")] .nil

/-- The second centered div holding the eight `fooinfo` panel cells
(legacy height/weight texts) and the base-stats row. -/
def div1 : HNode :=
  .elem "div" [("align", "center")] (domOf
    [tdF "pic", tdF "Bulbasaur", tdF "c2", tdF "c3", tdF "c4", tdF "Seed Pokémon",
     tdF "0.7m\r\n\t\t\t2ft", tdF "6.9kg\r\n\t\t\t15.2lbs", statsRow])

/-- The second centered div in the `Standard`/Metric variant: cells 6
and 7 contain a `Standard` label cell followed by the value cell. -/
def div1Std : HNode :=
  .elem "div" [("align", "center")] (domOf
    [tdF "pic", tdF "Bulbasaur", tdF "c2", tdF "c3", tdF "c4", tdF "Seed Pokémon",
     .elem "td" [("class", "fooinfo")] (domOf [td "Standard", td "62\""]),
     .elem "td" [("class", "fooinfo")] (domOf [td "Standard", td "15.2lbs"]),
     statsRow])

/-- The level-up move table with its anchor, two header rows, one data
row and one short row. -/
def lvlTable : HNode :=
  .elem "table" [] (domOf
    [.elem "tr" [] (domOf [.elem "a" [("name", "standardlevel")] .nil, td "Level", td "Move"]),
     .elem "tr" [] (domOf [td "h2a", td "h2b"]),
     .elem "tr" [] (domOf [td " 1 ", td "Tackle"]),
     .elem "tr" [] (domOf [td "lonely"])])

/-- The TM/HM table with its anchor. -/
def tmTable : HNode :=
  .elem "table" [] (domOf
    [.elem "tr" [] (domOf [.elem "a" [("name", "tmhm")] .nil, td "TM", td "Move"]),
     .elem "tr" [] (domOf [td "h2a", td "h2b"]),
     .elem "tr" [] (domOf [td "TM01", td "Focus Punch"])])

/-- The abilities table (the only `dextable` of `witnessDoc`). -/
def dexTable : HNode :=
  .elem "table" [("class", "dextable")] (domOf
    [.elem "tr" [] (domOf [td "Abilities: Overgrow", td "Hidden Ability: Chlorophyll"])])

/-- A second `dextable`, later in document order, whose ability row must
not contribute. -/
def dexTable2 : HNode :=
  .elem "table" [("class", "dextable")] (domOf
    [.elem "tr" [] (domOf [td "Abilities: Blaze"])])

/-- A complete page in the legacy height format, without an egg-move
anchor. -/
def witnessDoc : Dom := domOf [div0, div1, lvlTable, tmTable, dexTable]

/-- A complete page in the `Standard` height/weight format. -/
def witnessDocStd : Dom := domOf [div0, div1Std, lvlTable, tmTable, dexTable]

/-- A page with two `dextable` tables. -/
def docTwoDex : Dom := domOf [div0, div1, lvlTable, tmTable, dexTable, dexTable2]

/-- A page with no recognisable structure at all. -/
def tinyDoc : Dom := domOf [.text "hi"]

/-- The record `extract_statistics` produces from `witnessDoc` for
ID 1. -/
def witnessRecord : PokemonRecord :=
  ⟨"Bulbasaur", "#001", "Seed Pokémon", ["0.7m", "2ft"], ["6.9kg", "15.2lbs"],
   45, ["Abilities: Overgrow", "Hidden Ability: Chlorophyll (Hidden)"], 49, 49, 65, 45,
   ["1: Tackle"], ["TM01: Focus Punch"], []⟩

/-- The record `extract_statistics` produces from `witnessDocStd` for
ID 1. -/
def witnessStdRecord : PokemonRecord :=
  ⟨"Bulbasaur", "#001", "Seed Pokémon", ["62\"", ""], ["15.2lbs", ""],
   45, ["Abilities: Overgrow", "Hidden Ability: Chlorophyll (Hidden)"], 49, 49, 65, 45,
   ["1: Tackle"], ["TM01: Focus Punch"], []⟩

/-! ### General lemmas about the document model -/

/-- The nodes listed by `preorderPosts` are exactly the preorder nodes. -/
theorem preorderPosts_fst (d : Dom) : ∀ post, (preorderPosts d post).map Prod.fst = preorderD d := by
  induction d with
  | nil => intro post; rfl
  | text s sib ih => intro post; simp [preorderPosts, preorderD, ih]
  | elem t a cs sib ih1 ih2 => intro post; simp [preorderPosts, preorderD, ih1, ih2]

/-- Preorder membership is closed under taking the subtree of a member:
every preorder node of a member's child forest is a preorder node of the
original forest. -/
theorem mem_preorder_children (d : Dom) :
    ∀ m ∈ preorderD d, ∀ x ∈ preorderD m.children, x ∈ preorderD d := by
  induction d with
  | nil => intro m hm; simp [preorderD] at hm
  | text s sib ih =>
    intro m hm x hx
    simp only [preorderD, List.mem_cons] at hm ⊢
    rcases hm with hm | hm
    · subst hm; simp [HNode.children, preorderD] at hx
    · exact Or.inr (ih m hm x hx)
  | elem t a cs sib ih1 ih2 =>
    intro m hm x hx
    simp only [preorderD, List.mem_cons, List.mem_append] at hm ⊢
    rcases hm with hm | hm | hm
    · subst hm; exact Or.inr (Or.inl hx)
    · exact Or.inr (Or.inl (ih1 m hm x hx))
    · exact Or.inr (Or.inr (ih2 m hm x hx))

/-- When bs4 `.string` of a forest is defined, it is the whole text of
the forest. -/
theorem domStr?_textD (d : Dom) : ∀ s, domStr? d = some s → textD d = s.data := by
  induction d with
  | nil => intro s h; simp [domStr?] at h
  | text str sib ih =>
    intro s h
    cases sib with
    | nil => simp [domStr?] at h; simp [textD, h]
    | text s2 sib2 => simp [domStr?] at h
    | elem t2 a2 c2 s2 => simp [domStr?] at h
  | elem t a cs sib ih1 ih2 =>
    intro s h
    cases sib with
    | nil => simp [domStr?] at h; simp [textD, ih1 s h]
    | text s2 sib2 => simp [domStr?] at h
    | elem t2 a2 c2 s2 => simp [domStr?] at h

/-- When bs4 `.string` of a node is defined, it equals the node's
`.text`. -/
theorem str?_textOf (n : HNode) (s : String) (h : n.str? = some s) : n.textOf = s := by
  cases n with
  | text str => simpa [HNode.str?, HNode.textOf] using h
  | elem t a cs =>
    simp only [HNode.str?] at h
    simp only [HNode.textOf, domStr?_textD cs s h]

/-- A search for siblings fails exactly when nothing in the forest
matches. -/
theorem siblingsAfter_none (p : HNode → Bool) (d : Dom)
    (h : ∀ n ∈ preorderD d, p n = false) : siblingsAfter p d = none := by
  induction d with
  | nil => rfl
  | text s sib ih =>
    have h0 := h (.text s) (by simp [preorderD])
    have ih' := ih (fun n hn => h n (by simp [preorderD, hn]))
    simp [siblingsAfter, h0, ih']
  | elem t a cs sib ih1 ih2 =>
    have h0 := h (.elem t a cs) (by simp [preorderD])
    have ih1' := ih1 (fun n hn => h n (by simp [preorderD, hn]))
    have ih2' := ih2 (fun n hn => h n (by simp [preorderD, hn]))
    simp [siblingsAfter, h0, ih1', ih2']

/-- An ancestor search fails exactly when nothing in the forest
matches, whatever the current ancestor. -/
theorem ancSearch_none (p : HNode → Bool) (d : Dom)
    (h : ∀ n ∈ preorderD d, p n = false) : ∀ cur, ancSearch p cur d = none := by
  induction d with
  | nil => intro cur; rfl
  | text s sib ih =>
    intro cur
    have h0 := h (.text s) (by simp [preorderD])
    have ih' := ih (fun n hn => h n (by simp [preorderD, hn]))
    simp [ancSearch, h0, ih']
  | elem t a cs sib ih1 ih2 =>
    intro cur
    have h0 := h (.elem t a cs) (by simp [preorderD])
    have ih1' := ih1 (fun n hn => h n (by simp [preorderD, hn]))
    have ih2' := ih2 (fun n hn => h n (by simp [preorderD, hn]))
    simp [ancSearch, h0, ih1', ih2']

/-! ### Rewriting the extraction loops as list combinators -/

/-- The move-row loop is the `filterMap` of `fmtRow?`. -/
theorem movesRows_eq_filterMap (rs : List HNode) : movesRows rs = rs.filterMap fmtRow? := by
  induction rs with
  | nil => rfl
  | cons r rest ih =>
    simp only [movesRows, fmtRow?, List.filterMap_cons]
    cases hc : rowCells r with
    | nil => simpa [hc] using ih
    | cons c0 tl =>
      cases tl with
      | nil => simpa [hc] using ih
      | cons c1 tl2 => simp [hc, ih]

/-- The inner ability-cell loop is a `map`. -/
theorem abilityCells_eq_map (cs : List HNode) : abilityCells cs = cs.map abilityCell := by
  induction cs with
  | nil => rfl
  | cons c rest ih => simp [abilityCells, ih]

/-- The ability-row loop: rows whose text mentions `"Abilities"`
contribute all their cells, other rows nothing. -/
theorem abilityRows_eq (rs : List HNode) :
    abilityRows rs =
      (rs.filter (fun r => containsS "Abilities" r.textOf)).flatMap
        (fun r => (rowCells r).map abilityCell) := by
  induction rs with
  | nil => rfl
  | cons r rest ih =>
    by_cases h : containsS "Abilities" r.textOf = true
    · simp [abilityRows, h, ih, abilityCells_eq_map, List.filter_cons]
    · simp only [Bool.not_eq_true] at h
      simp [abilityRows, h, ih, List.filter_cons]

/-! ### Field plumbing from the `try` block into the record -/

/-- What a successful `try` block says about the fields it stores. -/
theorem tryBlock_fields (doc : Dom) (tb : TryOut) (h : tryBlock doc = some tb) :
    tb.egg = eggMovesExtract doc ∧
    tb.abilities = abilitiesExtract doc ∧
    movesFromAnchor "standardlevel" doc = some tb.levelUp ∧
    movesFromAnchor "tmhm" doc = some tb.tmHm := by
  unfold tryBlock at h
  simp only [Option.bind_eq_bind, Option.bind_eq_some] at h
  obtain ⟨⟨div1, cpi⟩, hcp, c6, h6, c7, h7, hw, hhw, bs, hsib, lvl, hlvl, tm, htm, hout⟩ := h
  simp only [Option.some_inj] at hout
  subst hout
  exact ⟨rfl, rfl, by rw [hlvl], by rw [htm]⟩

/-- What a successful assembly says about the list-valued fields copied
from the `try` block. -/
theorem assemble_fields (tb : TryOut) (pokeId : Int) (r : PokemonRecord)
    (h : assemble tb pokeId = some r) :
    r.egg_moves = tb.egg ∧ r.abilities = tb.abilities ∧
    r.level_up_moves = tb.levelUp ∧ r.tm_hm_moves = tb.tmHm ∧
    r.height = tb.height ∧ r.weight = tb.weight := by
  unfold assemble at h
  simp only [Option.bind_eq_bind, Option.bind_eq_some] at h
  obtain ⟨c1, h1, c5, h5, b0, hb0, b1, hb1, b2, hb2, b3, hb3, b4, hb4,
    hpv, hp, hav, ha, hdv, hd, hsv, hs, hqv, hq, hout⟩ := h
  simp only [Option.some_inj] at hout
  subst hout
  exact ⟨rfl, rfl, rfl, rfl, rfl, rfl⟩

/-- A successful `try` block found the second centered div and the
base-stat siblings inside it. -/
theorem tryBlock_some_baseStats (doc : Dom) (tb : TryOut) (h : tryBlock doc = some tb) :
    ∃ div1 cpi bs, cpEntries doc = some (div1, cpi) ∧
      siblingsAfter isBaseStatsTd div1.children = some bs := by
  unfold tryBlock at h
  simp only [Option.bind_eq_bind, Option.bind_eq_some] at h
  obtain ⟨⟨div1, cpi⟩, hcp, c6, h6, c7, h7, hw, hhw, bs, hsib, lvl, hlvl, tm, htm, hout⟩ := h
  exact ⟨div1, cpi, bs, hcp, hsib⟩

/-- The div selected by `cpEntries` is a node of the document. -/
theorem cpEntries_div_mem (doc : Dom) (div1 : HNode) (cpi : List (HNode × List HNode))
    (h : cpEntries doc = some (div1, cpi)) : div1 ∈ preorderD doc := by
  unfold cpEntries at h
  simp only [Option.bind_eq_bind, Option.bind_eq_some] at h
  obtain ⟨d1, hget, hout⟩ := h
  simp only [Option.some_inj, Prod.mk.injEq] at hout
  have hmem : d1 ∈ (preorderPosts doc []).filter (fun e => isCenterDiv e.1) :=
    List.get?_mem hget
  have hmem2 : d1 ∈ preorderPosts doc [] := List.mem_of_mem_filter hmem
  have : d1.1 ∈ (preorderPosts doc []).map Prod.fst := List.mem_map_of_mem Prod.fst hmem2
  rw [preorderPosts_fst] at this
  rw [← hout.1]
  exact this

/-! ### Per-ID extraction status and the loop characterization -/

/-- When every ID of the list extracts successfully the loop appends one
record per ID in list order, emits the per-record events, and ends
without error. -/
theorem runLoop_ok (docs : Int → Dom) (save verbose : Bool) :
    ∀ ids : List Int, (∀ i ∈ ids, extractsOk docs i = true) →
      runLoop docs save verbose ids =
        ⟨ids.map (fun i => (i, recOf docs i)),
         (ids.map (perRecEvents docs save verbose)).flatten, none⟩ := by
  intro ids
  induction ids with
  | nil => intro _; rfl
  | cons a rest ih =>
    intro hok
    have ha := hok a (by simp)
    unfold runLoop
    cases hx : extract_statistics (docs a) a with
    | error e => rw [extractsOk, hx] at ha; simp at ha
    | ok r =>
      have hrec : recOf docs a = r := by rw [recOf, hx]
      have ihr := ih (fun i hi => hok i (by simp [hi]))
      rw [ihr]
      simp [perRecEvents, hrec]

/-- When some ID of the list fails to extract, the loop stops at the
first failing ID: the records are exactly those of the successful prefix
before it, the last event is that ID's fetch, and the loop ends with
that ID's error. -/
theorem runLoop_err (docs : Int → Dom) (save verbose : Bool) :
    ∀ ids : List Int, ∀ i ∈ ids, extractsOk docs i = false →
      ∃ pre j post, ids = pre ++ j :: post ∧
        (∀ k ∈ pre, extractsOk docs k = true) ∧ extractsOk docs j = false ∧
        runLoop docs save verbose ids =
          ⟨pre.map (fun k => (k, recOf docs k)),
           (pre.map (perRecEvents docs save verbose)).flatten ++ [.fetched (urlOf j)],
           some (errOf docs j)⟩ := by
  intro ids
  induction ids with
  | nil => intro i hi; simp at hi
  | cons a rest ih =>
    intro i hi hbad
    cases hx : extract_statistics (docs a) a with
    | error e =>
      refine ⟨[], a, rest, rfl, by simp, by rw [extractsOk, hx], ?_⟩
      unfold runLoop
      rw [hx]
      simp [errOf, hx]
    | ok r =>
      have hXa : extractsOk docs a = true := by rw [extractsOk, hx]
      have hia : i ≠ a := by
        intro he; rw [he] at hbad; rw [hbad] at hXa; exact Bool.noConfusion hXa
      have hir : i ∈ rest := by
        rcases List.mem_cons.mp hi with h | h
        · exact absurd h hia
        · exact h
      obtain ⟨pre, j, post, hsplit, hpre, hj, hrun⟩ := ih i hir hbad
      refine ⟨a :: pre, j, post, by rw [hsplit]; rfl, ?_, hj, ?_⟩
      · intro k hk
        rcases List.mem_cons.mp hk with h | h
        · rw [h]; exact hXa
        · exact hpre k h
      · unfold runLoop
        rw [hx, hrun]
        have hrec : recOf docs a = r := by rw [recOf, hx]
        simp [perRecEvents, hrec]

/-- A loop that ends without error extracted every ID successfully. -/
theorem runLoop_none_ok (docs : Int → Dom) (save verbose : Bool) (ids : List Int)
    (h : (runLoop docs save verbose ids).err = none) :
    ∀ i ∈ ids, extractsOk docs i = true := by
  intro i hi
  by_contra hbad
  simp only [Bool.not_eq_true] at hbad
  obtain ⟨pre, j, post, _, _, _, hrun⟩ := runLoop_err docs save verbose ids i hi hbad
  rw [hrun] at h
  exact Option.noConfusion h

/-! ### `range(first, last + 1)` facts -/

/-- Length of a Python range. -/
theorem pyRange_length (a b : Int) : (pyRange a b).length = (b - a).toNat := by
  unfold pyRange
  rw [List.length_map, List.length_range]

/-- Membership in a Python range. -/
theorem mem_pyRange (a b i : Int) : i ∈ pyRange a b ↔ a ≤ i ∧ i < b := by
  simp only [pyRange, List.mem_map, List.mem_range]
  constructor
  · rintro ⟨k, hk, rfl⟩
    omega
  · intro h
    exact ⟨(i - a).toNat, by omega, by omega⟩

/-- A Python range is strictly increasing. -/
theorem pyRange_pairwise (a b : Int) : (pyRange a b).Pairwise (· < ·) := by
  unfold pyRange
  rw [List.pairwise_map]
  apply List.Pairwise.imp ?_ (List.pairwise_lt_range _)
  intro x y hxy
  omega

/-- The loop itself never saves JSON, and with `--save` set but
`--verbose` unset it never formats to the console either. -/
theorem runLoop_events_shape (docs : Int → Dom) (save verbose : Bool) :
    ∀ ids : List Int, ∀ e ∈ (runLoop docs save verbose ids).events,
      isSavedE e = false ∧
        (verbose = false → save = true → isDisplayedE e = false) := by
  intro ids
  induction ids with
  | nil => intro e he; simp [runLoop] at he
  | cons a rest ih =>
    intro e he
    unfold runLoop at he
    cases hx : extract_statistics (docs a) a with
    | error er =>
      rw [hx] at he
      simp only [List.mem_singleton] at he
      subst he
      exact ⟨rfl, fun _ _ => rfl⟩
    | ok r =>
      rw [hx] at he
      simp only [List.mem_cons] at he
      rcases he with he | he | he
      · subst he; exact ⟨rfl, fun _ _ => rfl⟩
      · subst he
        constructor
        · cases hv : verbose <;> cases hs : save <;> simp [hv, hs, isSavedE]
        · intro hv hs
          simp [hv, hs, isDisplayedE]
      · exact ih e he

/-! ### The claims -/

/-- C3: for all inputs with `first < 1026`, `last < 1026` and
`last < first`, `validate_input` coerces `last` up to `first` and
returns `(first, first)` without signalling an error. -/
theorem c3_validate_coerces (first_id last_id : Int)
    (h1 : first_id < 1026) (h2 : last_id < 1026) (h3 : last_id < first_id) :
    validate_input first_id last_id = .ok (first_id, first_id) := by
  unfold validate_input
  have e1 : (first_id ≥ 1026 || last_id ≥ 1026) = false := by
    have d1 : decide (first_id ≥ 1026) = false := decide_eq_false (by omega)
    have d2 : decide (last_id ≥ 1026) = false := decide_eq_false (by omega)
    simp [d1, d2]
  rw [if_neg (by simp [e1])]
  rw [if_pos h3]

/-- C3 witness: `validate_input(5, 2)` returns `(5, 5)`. -/
theorem c3_witness : validate_input 5 2 = .ok (5, 5) :=
  c3_validate_coerces 5 2 (by decide) (by decide) (by decide)

/-- C4 counterexample: on input `(first, last) = (1026, 1)` the run does
terminate immediately with a range error, but through Python's bare
`exit()`, whose exit status is 0 — not a non-zero-equivalent exit as the
claim states. -/
theorem c4_counterexample :
    (mainRun (fun _ => Dom.nil) ⟨false, 1026, 1, false⟩).2 = Outcome.exited 0 ∧
      ∀ c : Nat,
        (mainRun (fun _ => Dom.nil) ⟨false, 1026, 1, false⟩).2 = Outcome.exited c → c = 0 := by
  constructor
  · rfl
  · intro c h
    have h0 : Outcome.exited 0 = Outcome.exited c := by
      rw [← h]; rfl
    injection h0 with h1
    exact h1.symm

/-- C4 amended: for every pair with `first ≥ 1026` or `last ≥ 1026` the
run logs the banner and the range-error message and terminates at once
via `exit()` with exit status 0 (a success-equivalent status, not the
non-zero exit the claim stated), before any fetch occurs and with no
other work performed: those two log lines are the entire event trace. -/
theorem c4_amended (docs : Int → Dom) (a : Args)
    (h : 1026 ≤ a.first ∨ 1026 ≤ a.last) :
    mainRun docs a =
      ([.loggedInfo "Extracting data from Serebii.net", .loggedError rangeErrorMsg],
       .exited 0) := by
  have hb : (a.first ≥ 1026 || a.last ≥ 1026) = true := by
    rw [Bool.or_eq_true]
    rcases h with h | h
    · exact Or.inl (decide_eq_true h)
    · exact Or.inr (decide_eq_true h)
  have hv : validate_input a.first a.last = .error rangeErrorMsg := by
    unfold validate_input
    rw [if_pos hb]
  unfold mainRun
  rw [hv]

/-- C4 amended, witness at the input `(1026, 1)` named by the claim. -/
theorem c4_witness :
    (1026 ≤ (1026 : Int) ∨ 1026 ≤ (1 : Int)) ∧
      mainRun (fun _ => Dom.nil) ⟨false, 1026, 1, false⟩ =
        ([.loggedInfo "Extracting data from Serebii.net", .loggedError rangeErrorMsg],
         .exited 0) :=
  ⟨Or.inl (by decide), c4_amended (fun _ => Dom.nil) ⟨false, 1026, 1, false⟩ (Or.inl (by decide))⟩

/-- C2: for every ID range with `first ≤ last < 1026` in which every
per-ID extraction succeeds, the batch completes without error and
appends exactly `last - first + 1` records, one per ID, in ascending ID
order. -/
theorem c2_batch_complete (docs : Int → Dom) (f l : Int) (save verbose : Bool)
    (h1 : f ≤ l) (h2 : l < 1026)
    (hok : ∀ i : Int, f ≤ i → i ≤ l → extractsOk docs i = true) :
    (scrape_pokemon docs f l save verbose).err = none ∧
      (scrape_pokemon docs f l save verbose).recs.length = (l - f + 1).toNat ∧
      (scrape_pokemon docs f l save verbose).recs.map Prod.fst = pyRange f (l + 1) ∧
      (scrape_pokemon docs f l save verbose).recs =
        (pyRange f (l + 1)).map (fun i => (i, recOf docs i)) ∧
      ((scrape_pokemon docs f l save verbose).recs.map Prod.fst).Pairwise (· < ·) := by
  have hok' : ∀ i ∈ pyRange f (l + 1), extractsOk docs i = true := by
    intro i hi
    have := (mem_pyRange f (l + 1) i).mp hi
    exact hok i this.1 (by omega)
  have hrun := runLoop_ok docs save verbose (pyRange f (l + 1)) hok'
  have hrecs : (scrape_pokemon docs f l save verbose).recs =
      (pyRange f (l + 1)).map (fun i => (i, recOf docs i)) := by
    unfold scrape_pokemon
    rw [hrun]
    cases save <;> simp
  have herr : (scrape_pokemon docs f l save verbose).err = none := by
    unfold scrape_pokemon
    rw [hrun]
    cases save <;> simp
  have hfst : (scrape_pokemon docs f l save verbose).recs.map Prod.fst = pyRange f (l + 1) := by
    rw [hrecs, List.map_map]
    exact List.map_id' _
  refine ⟨herr, ?_, hfst, hrecs, ?_⟩
  · rw [hrecs, List.length_map, pyRange_length]
    omega
  · rw [hfst]
    exact pyRange_pairwise f (l + 1)

/-- C2 witness: the one-ID range `[1, 1]` against the concrete page. -/
theorem c2_witness :
    (scrape_pokemon (fun _ => witnessDoc) 1 1 false false).err = none ∧
      (scrape_pokemon (fun _ => witnessDoc) 1 1 false false).recs.length = 1 :=
  have hok : ∀ i : Int, 1 ≤ i → i ≤ 1 → extractsOk (fun _ => witnessDoc) i = true :=
    fun _ _ _ => rfl
  ⟨(c2_batch_complete (fun _ => witnessDoc) 1 1 false false (by decide) (by decide) hok).1,
   by
    rw [(c2_batch_complete (fun _ => witnessDoc) 1 1 false false (by decide) (by decide)
      hok).2.1]
    rfl⟩

/-- C6 counterexample: with both `--save` and `--verbose` set on a
successful one-ID run, the console-formatting path and the
JSON-persistence path both take effect in the same run, so the two
output paths are not mutually exclusive in effect. -/
theorem c6_counterexample :
    (scrape_pokemon (fun _ => witnessDoc) 1 1 true true).events.any isDisplayedE = true ∧
      (scrape_pokemon (fun _ => witnessDoc) 1 1 true true).events.any isSavedE = true := by
  constructor <;> decide

/-- C6 amended: the two output paths are mutually exclusive in effect
per run except when `--save` and `--verbose` are both set: whenever at
most one of the two flags is set, at most one of console formatting and
JSON persistence takes effect. -/
theorem c6_amended (docs : Int → Dom) (f l : Int) (save verbose : Bool)
    (h : (save && verbose) = false) :
    ((scrape_pokemon docs f l save verbose).events.any isDisplayedE &&
      (scrape_pokemon docs f l save verbose).events.any isSavedE) = false := by
  cases save with
  | false =>
    have hns : (scrape_pokemon docs f l false verbose).events.any isSavedE = false := by
      rw [List.any_eq_false]
      intro e he
      rw [Bool.not_eq_true]
      simp only [scrape_pokemon] at he
      cases herr : (runLoop docs false verbose (pyRange f (l + 1))).err with
      | some er =>
        rw [herr] at he
        exact (runLoop_events_shape docs false verbose (pyRange f (l + 1)) e he).1
      | none =>
        simp [herr] at he
        rcases he with he | he
        · exact (runLoop_events_shape docs false verbose (pyRange f (l + 1)) e he).1
        · subst he; rfl
    rw [hns, Bool.and_false]
  | true =>
    have hv : verbose = false := by simpa using h
    subst hv
    have hnd : (scrape_pokemon docs f l true false).events.any isDisplayedE = false := by
      rw [List.any_eq_false]
      intro e he
      rw [Bool.not_eq_true]
      simp only [scrape_pokemon] at he
      cases herr : (runLoop docs true false (pyRange f (l + 1))).err with
      | some er =>
        rw [herr] at he
        exact (runLoop_events_shape docs true false (pyRange f (l + 1)) e he).2 rfl rfl
      | none =>
        simp [herr] at he
        rcases he with he | he | he
        · exact (runLoop_events_shape docs true false (pyRange f (l + 1)) e he).2 rfl rfl
        · subst he; rfl
        · subst he; rfl
    rw [hnd, Bool.false_and]

/-- C6 amended, witness: with `--save` alone the console path never
fires together with the JSON path. -/
theorem c6_witness :
    ((scrape_pokemon (fun _ => witnessDoc) 1 1 true false).events.any isDisplayedE &&
      (scrape_pokemon (fun _ => witnessDoc) 1 1 true false).events.any isSavedE) = false :=
  c6_amended (fun _ => witnessDoc) 1 1 true false rfl

/-- C9: with `--save` set, a JSON write happens only as the very last
event of a run in which every ID of the range extracted successfully,
and it writes exactly the batch of extracted records; consequently if
any extraction fails, the output file is never opened or written. -/
theorem c9_saved_only_after_success (docs : Int → Dom) (f l : Int) (verbose : Bool)
    (e : Event) (he : e ∈ (scrape_pokemon docs f l true verbose).events)
    (hs : isSavedE e = true) :
    (scrape_pokemon docs f l true verbose).err = none ∧
      (∀ i ∈ pyRange f (l + 1), extractsOk docs i = true) ∧
      e = .savedJson ((pyRange f (l + 1)).map (recOf docs)) ∧
      (scrape_pokemon docs f l true verbose).events.getLast? = some e := by
  simp only [scrape_pokemon] at he ⊢
  cases herr : (runLoop docs true verbose (pyRange f (l + 1))).err with
  | some er =>
    rw [herr] at he
    have := (runLoop_events_shape docs true verbose (pyRange f (l + 1)) e he).1
    rw [hs] at this
    exact Bool.noConfusion this
  | none =>
    simp [herr] at he
    have hok : ∀ i ∈ pyRange f (l + 1), extractsOk docs i = true :=
      runLoop_none_ok docs true verbose (pyRange f (l + 1)) herr
    have hrun := runLoop_ok docs true verbose (pyRange f (l + 1)) hok
    have hsnd : (runLoop docs true verbose (pyRange f (l + 1))).recs.map Prod.snd =
        (pyRange f (l + 1)).map (recOf docs) := by
      rw [hrun, List.map_map]
      rfl
    have hee : e = Event.savedJson ((pyRange f (l + 1)).map (recOf docs)) := by
      rcases he with he | he | he
      · have := (runLoop_events_shape docs true verbose (pyRange f (l + 1)) e he).1
        rw [hs] at this
        exact Bool.noConfusion this
      · subst he; exact Bool.noConfusion hs
      · rw [he, hsnd]
    refine ⟨rfl, hok, hee, ?_⟩
    show ((runLoop docs true verbose (pyRange f (l + 1))).events ++
      [Event.loggedInfo "Saving to pokemon.json",
       Event.savedJson ((runLoop docs true verbose (pyRange f (l + 1))).recs.map Prod.snd)]).getLast?
        = some e
    rw [show ∀ (l' : List Event) (x y : Event), l' ++ [x, y] = (l' ++ [x]) ++ [y] from
      fun l' x y => by simp]
    rw [List.getLast?_concat]
    rw [hee, hsnd]

/-- C9 witness: a concrete saving run writes the batch as its final
event. -/
theorem c9_witness :
    (scrape_pokemon (fun _ => witnessDoc) 1 1 true false).err = none ∧
      (scrape_pokemon (fun _ => witnessDoc) 1 1 true false).events.getLast? =
        some (.savedJson [witnessRecord]) :=
  have h := c9_saved_only_after_success (fun _ => witnessDoc) 1 1 false
    (.savedJson [witnessRecord]) (by decide) rfl
  ⟨h.1, h.2.2.2⟩

/-- A successful extraction decomposes into a successful `try` block and
a successful assembly. -/
theorem extract_ok_parts (doc : Dom) (pokeId : Int) (r : PokemonRecord)
    (h : extract_statistics doc pokeId = .ok r) :
    ∃ tb, tryBlock doc = some tb ∧ assemble tb pokeId = some r := by
  unfold extract_statistics at h
  cases htb : tryBlock doc with
  | none =>
    simp only [htb] at h
    exact Except.noConfusion h
  | some tb =>
    simp only [htb] at h
    cases has : assemble tb pokeId with
    | none =>
      simp only [has] at h
      exact Except.noConfusion h
    | some r2 =>
      simp only [has, Except.ok.injEq] at h
      exact ⟨tb, rfl, by rw [has, h]⟩

/-- A falsy table (no contents) has no rows. -/
theorem tableRows_of_not_truthy (t : HNode) (h : truthy t = false) : tableRows t = [] := by
  cases t with
  | text s => rfl
  | elem tg a cs =>
    cases cs with
    | nil => rfl
    | text s2 sib => exact Bool.noConfusion h
    | elem t2 a2 c2 s2 => exact Bool.noConfusion h

/-- C1: when no cell of the parsed document has text containing
`"Base Stats - Total"`, per-ID extraction raises the error that is
logged with the offending URL and re-raised, and any batch whose range
contains that ID halts with an error, having produced records only for
IDs strictly before it — none for that ID or any later one. -/
theorem c1_no_basestats (doc : Dom)
    (hno : ∀ n ∈ preorderD doc, isTd n = true →
      containsS "Base Stats - Total" n.textOf = false) :
    (∀ pokeId : Int,
      extract_statistics doc pokeId = .error (.loggedExtraction (urlOf pokeId))) ∧
    (∀ (docs : Int → Dom) (f l i : Int) (save verbose : Bool),
      docs i = doc → f ≤ i → i ≤ l →
      (scrape_pokemon docs f l save verbose).err.isSome = true ∧
        ∀ p ∈ (scrape_pokemon docs f l save verbose).recs, p.1 < i) := by
  have hkey : tryBlock doc = none := by
    cases htb : tryBlock doc with
    | none => rfl
    | some tb =>
      obtain ⟨div1c, cpi, bs, hcp, hsib⟩ := tryBlock_some_baseStats doc tb htb
      have hmem := cpEntries_div_mem doc div1c cpi hcp
      have hfalse : ∀ n ∈ preorderD div1c.children, isBaseStatsTd n = false := by
        intro n hn
        have hdoc : n ∈ preorderD doc := mem_preorder_children doc div1c hmem n hn
        cases hb : isBaseStatsTd n with
        | false => rfl
        | true =>
          unfold isBaseStatsTd at hb
          obtain ⟨htd, hmatch⟩ := Bool.and_eq_true_iff.mp hb
          cases hstr : n.str? with
          | none => rw [hstr] at hmatch; exact Bool.noConfusion hmatch
          | some s =>
            simp only [hstr] at hmatch
            have htext := str?_textOf n s hstr
            have hT := hno n hdoc htd
            rw [htext] at hT
            rw [hT] at hmatch
            exact Bool.noConfusion hmatch
      rw [siblingsAfter_none _ _ hfalse] at hsib
      exact Option.noConfusion hsib
  have ha : ∀ pokeId : Int,
      extract_statistics doc pokeId = .error (.loggedExtraction (urlOf pokeId)) := by
    intro pokeId
    unfold extract_statistics
    rw [hkey]
  refine ⟨ha, ?_⟩
  intro docs f l i save verbose hd hf hl
  have himem : i ∈ pyRange f (l + 1) := (mem_pyRange f (l + 1) i).mpr ⟨hf, by omega⟩
  have hfail : extractsOk docs i = false := by
    unfold extractsOk
    rw [hd, ha i]
  obtain ⟨pre, j, post, hsplit, hpreok, hjfail, hruneq⟩ :=
    runLoop_err docs save verbose (pyRange f (l + 1)) i himem hfail
  have hpw := pyRange_pairwise f (l + 1)
  rw [hsplit] at hpw
  have hlt : ∀ k ∈ pre, k < j := by
    intro k hk
    exact (List.pairwise_append.mp hpw).2.2 k hk j (List.mem_cons_self j post)
  have hji : j ≤ i := by
    have hi2 : i ∈ pre ++ j :: post := by rw [← hsplit]; exact himem
    rcases List.mem_append.mp hi2 with hin | hin
    · exfalso
      have hT := hpreok i hin
      rw [hfail] at hT
      exact Bool.noConfusion hT
    · rcases List.mem_cons.mp hin with heq | hin
      · omega
      · have hp2 := (List.pairwise_append.mp hpw).2.1
        have := (List.pairwise_cons.mp hp2).1 i hin
        omega
  have hserr : (scrape_pokemon docs f l save verbose).err = some (errOf docs j) := by
    simp only [scrape_pokemon]
    rw [hruneq]
  have hsrecs : (scrape_pokemon docs f l save verbose).recs =
      pre.map (fun k => (k, recOf docs k)) := by
    simp only [scrape_pokemon]
    rw [hruneq]
  refine ⟨by rw [hserr]; rfl, ?_⟩
  intro p hp
  rw [hsrecs] at hp
  obtain ⟨k, hk, rfl⟩ := List.mem_map.mp hp
  have := hlt k hk
  show k < i
  omega

/-- C1 witness: a page with no base-stat cell fails with the logged URL
error and halts a batch containing it with no records. -/
theorem c1_witness :
    extract_statistics tinyDoc 3 = .error (.loggedExtraction (urlOf 3)) ∧
      (scrape_pokemon (fun _ => tinyDoc) 1 2 false false).err.isSome = true ∧
      ∀ p ∈ (scrape_pokemon (fun _ => tinyDoc) 1 2 false false).recs, p.1 < (1 : Int) :=
  have h := c1_no_basestats tinyDoc (by decide)
  ⟨h.1 3, h.2 (fun _ => tinyDoc) 1 2 1 false false rfl (by decide) (by decide)⟩

/-- C5: when the document has no egg-moves anchor at all, the egg-move
extractor returns the empty list without raising (its anchor lookup is
guarded), and any record extracted from the document has empty
`egg_moves`. -/
theorem c5_egg_absent (doc : Dom)
    (hno : ∀ n ∈ preorderD doc, isAnchorNamed "eggmoves" n = false) :
    eggMovesExtract doc = [] ∧
      ∀ (pokeId : Int) (r : PokemonRecord),
        extract_statistics doc pokeId = .ok r → r.egg_moves = [] := by
  have hegg : eggMovesExtract doc = [] := by
    unfold eggMovesExtract
    rw [ancSearch_none _ _ hno none]
  refine ⟨hegg, ?_⟩
  intro pokeId r hok
  obtain ⟨tb, htb, has⟩ := extract_ok_parts doc pokeId r hok
  rw [(assemble_fields tb pokeId r has).1, (tryBlock_fields doc tb htb).1, hegg]

/-- C5 witness: the page without an egg-moves anchor yields an empty
`egg_moves` field. -/
theorem c5_witness :
    eggMovesExtract witnessDoc = [] ∧ witnessRecord.egg_moves = [] :=
  have h := c5_egg_absent witnessDoc (by decide)
  ⟨h.1, h.2 1 witnessRecord rfl⟩

/-- C8: if the `standardlevel` anchor is entirely absent, extraction
raises (fatal, no defensive guard); otherwise, whenever extraction
succeeds and the anchor has an enclosing table, `level_up_moves` is
exactly the `"<level>: <move>"` string of cells 0 and 1 of every row of
that table past the first two that has at least two cells, in document
row order — and is empty when the table has fewer than three rows. -/
theorem c8_level_up (doc : Dom) :
    ((∀ n ∈ preorderD doc, isAnchorNamed "standardlevel" n = false) →
      ∀ pokeId : Int,
        extract_statistics doc pokeId = .error (.loggedExtraction (urlOf pokeId))) ∧
    (∀ (t : HNode) (pokeId : Int) (r : PokemonRecord),
      ancSearch (isAnchorNamed "standardlevel") none doc = some (some t) →
      extract_statistics doc pokeId = .ok r →
      r.level_up_moves = ((tableRows t).drop 2).filterMap fmtRow? ∧
        ((tableRows t).length < 3 → r.level_up_moves = [])) := by
  constructor
  · intro hno pokeId
    have hmv : movesFromAnchor "standardlevel" doc = none := by
      unfold movesFromAnchor
      rw [ancSearch_none _ _ hno]
    have hkey : tryBlock doc = none := by
      cases htb : tryBlock doc with
      | none => rfl
      | some tb =>
        have := (tryBlock_fields doc tb htb).2.2.1
        rw [hmv] at this
        exact Option.noConfusion this
    unfold extract_statistics
    rw [hkey]
  · intro t pokeId r hanc hok
    obtain ⟨tb, htb, has⟩ := extract_ok_parts doc pokeId r hok
    have hlvl := (tryBlock_fields doc tb htb).2.2.1
    unfold movesFromAnchor at hlvl
    simp only [hanc, Option.some_inj] at hlvl
    have hr := (assemble_fields tb pokeId r has).2.2.1
    constructor
    · rw [hr, ← hlvl]
      cases ht : truthy t with
      | true =>
        simp only [if_pos]
        exact movesRows_eq_filterMap _
      | false =>
        rw [tableRows_of_not_truthy t ht]
        simp [movesRows]
    · intro hlen
      rw [hr, ← hlvl]
      have hdrop : (tableRows t).drop 2 = [] := List.drop_eq_nil_of_le (by omega)
      rw [hdrop]
      cases truthy t <;> simp [movesRows]

/-- C8 witness: the anchorless page raises; the concrete level table
yields its single qualifying row. -/
theorem c8_witness :
    extract_statistics tinyDoc 4 = .error (.loggedExtraction (urlOf 4)) ∧
      witnessRecord.level_up_moves = ((tableRows lvlTable).drop 2).filterMap fmtRow? :=
  ⟨(c8_level_up tinyDoc).1 (by decide) 4,
   ((c8_level_up witnessDoc).2 lvlTable 1 witnessRecord rfl rfl).1⟩

/-- C10: the abilities field is computed from the first
`dextable`-classed table of the document only — every row of that table
whose text contains `"Abilities"` contributes all of its cells (with
`" (Hidden)"` appended to cells containing `"Hidden Ability"`), any
later `dextable` being ignored (the field depends only on that first
table) — and a successful extraction copies it into the record. -/
theorem c10_abilities (doc : Dom) :
    (∀ t : HNode, (preorderD doc).find? isDextable = some t →
      abilitiesExtract doc =
        ((tableRows t).filter (fun rw => containsS "Abilities" rw.textOf)).flatMap
          (fun rw => (rowCells rw).map abilityCell)) ∧
    (∀ doc2 : Dom,
      (preorderD doc).find? isDextable = (preorderD doc2).find? isDextable →
      abilitiesExtract doc = abilitiesExtract doc2) ∧
    (∀ (pokeId : Int) (r : PokemonRecord),
      extract_statistics doc pokeId = .ok r → r.abilities = abilitiesExtract doc) := by
  refine ⟨?_, ?_, ?_⟩
  · intro t hfind
    unfold abilitiesExtract
    rw [hfind]
    show (if truthy t = true then abilityRows (tableRows t) else []) =
      ((tableRows t).filter (fun rw => containsS "Abilities" rw.textOf)).flatMap
        (fun rw => (rowCells rw).map abilityCell)
    cases ht : truthy t with
    | true =>
      rw [if_pos rfl]
      exact abilityRows_eq _
    | false =>
      rw [if_neg Bool.false_ne_true, tableRows_of_not_truthy t ht]
      simp
  · intro doc2 hsame
    unfold abilitiesExtract
    rw [hsame]
  · intro pokeId r hok
    obtain ⟨tb, htb, has⟩ := extract_ok_parts doc pokeId r hok
    rw [(assemble_fields tb pokeId r has).2.1, (tryBlock_fields doc tb htb).2.1]

/-- C10 witness: on the page with two `dextable` tables only the first
contributes; the ability row of the second (`Blaze`) is absent. -/
theorem c10_witness :
    abilitiesExtract docTwoDex =
      ["Abilities: Overgrow", "Hidden Ability: Chlorophyll (Hidden)"] :=
  ((c10_abilities docTwoDex).1 dexTable rfl).trans (by decide)

/-- C7: when the height cell (panel cell 6) contains a `td` whose string
is exactly `"Standard"`, any successfully extracted record's height is
produced by the Standard/Metric variant path — the text of the `td`
following the `Standard` cell, with a space inserted after the quote
character, split on spaces — not by the legacy newline split. -/
theorem c7_height_variant (doc : Dom) (div1c : HNode) (cpi : List (HNode × List HNode))
    (c6 : HNode × List HNode) (std nxtH : HNode) (tailH : List HNode)
    (hcp : cpEntries doc = some (div1c, cpi))
    (h6 : cpi.get? 6 = some c6)
    (hstd : findWithAfter isStdTd c6.1.children c6.2 = some (std, tailH))
    (hnxt : tailH.find? isTd = some nxtH) :
    ∀ (pokeId : Int) (r : PokemonRecord), extract_statistics doc pokeId = .ok r →
      r.height = pySplit " " (pyReplace "\"" "\" " nxtH.textOf) := by
  intro pokeId r hok
  obtain ⟨tb, htb, has⟩ := extract_ok_parts doc pokeId r hok
  unfold tryBlock at htb
  simp only [Option.bind_eq_bind, Option.bind_eq_some] at htb
  obtain ⟨⟨d1, cp⟩, hcp2, c6b, h6b, c7b, h7b, hw, hhw, bs, hsib, lvl, hlvl, tm, htm, hout⟩ := htb
  have hpair := hcp.symm.trans hcp2
  simp only [Option.some_inj, Prod.mk.injEq] at hpair
  obtain ⟨hd1, hcpi⟩ := hpair
  rw [← hcpi] at h6b
  have hc6 : c6b = c6 := by
    have := h6.symm.trans h6b
    simp only [Option.some_inj] at this
    exact this.symm
  subst hc6
  unfold heightWeight at hhw
  simp only [hstd, hnxt, Option.bind_eq_bind, Option.bind_eq_some, Option.some_inj] at hhw
  obtain ⟨nxt2, hnx2, w2, hw2, hfin⟩ := hhw
  subst hnx2
  simp only [Option.some_inj] at hout
  subst hout
  have hr := (assemble_fields _ pokeId r has).2.2.2.2.1
  rw [hr]
  show hw.1 = _
  rw [← hfin]

/-- C7 witness: on the `Standard`-variant page the extracted height is
the variant-path tokenisation of the cell text `62"` (and differs from
what the legacy newline split of that cell would give). -/
theorem c7_witness :
    witnessStdRecord.height = pySplit " " (pyReplace "\"" "\" " "62\"") ∧
      extract_statistics witnessDocStd 1 = .ok witnessStdRecord := by
  have h := c7_height_variant witnessDocStd _ _ _ _ _ _ rfl rfl rfl rfl
  exact ⟨h 1 witnessStdRecord rfl, rfl⟩

end Scraper
